import Mathlib

/-!
Shallow embedding of the friss parser-combinator library (Rust) and proofs
about it.  Each definition translates one function of the source:

* `src/parsers.rs` — the `Parsable` implementation for `&str`
  (`make_literal_matcher`, `make_anything_matcher`, `make_item_matcher`,
  `make_empty_matcher`).  A `&str` is modelled as a `List Char`; Rust's
  byte-index `split_at` is modelled through each char's UTF-8 width, and a
  Rust panic (splitting at a non-char-boundary) is modelled as `none`.
* `src/core.rs` — the combinators `seq`, `alt`, `many`, `at_least_n`,
  `exactly_n`, `backtrack`, `or` and the `pure` constructor.  A parser is a
  function `ι → PRes ι ω ε`; the unbounded Rust loops (`many`) are given an
  explicit fuel argument, `none` meaning the loop has not finished within
  the fuel.
* `src/memo.rs` — `MemoizedParser::parse`, with the cache as an association
  list keyed by the input (a single parser, so the `parser_id` component of
  the key is constant).
* `src/packrat.rs` — `PackratParserImpl::packrat_parse`, its seed-and-grow
  loop, `is_more_matched` and `string_to_error`, specialised to one rule
  (`rule_id` constant) over `&str` input.  `string_to_error`'s `TypeId`
  dispatch panics for error types other than `&str`/`String`; a panic is
  modelled as `Except.error` carrying the panic message, and fuel
  exhaustion as `none`.
-/

/-- The outcome of one parse step: Rust's
`Result<(Input, Output), (Input, Error)>` from `Parser::parse`. -/
inductive PRes (ι ω ε : Type) : Type where
  | ok (rest : ι) (out : ω)
  | err (rest : ι) (e : ε)
deriving DecidableEq, Repr

/-- The `Either<A, B>` sum type of `src/types.rs`. -/
inductive SEither (α β : Type) : Type where
  | left (a : α)
  | right (b : β)
deriving DecidableEq, Repr

/-- A Rust `&str` modelled as its list of chars. -/
abbrev Str : Type := List Char

/-- The chars of a string literal, for writing concrete inputs. -/
def chars (s : String) : Str := s.data

/-- The Rust byte length (`str::len`) of a `&str`: the sum of the UTF-8
widths of its chars. -/
def byteLen : Str → Nat
  | [] => 0
  | c :: rest => c.utf8Size + byteLen rest

/-- `<&str as Parsable>::make_literal_matcher` (src/parsers.rs:12-29):
if the input is byte-shorter than the literal, fail with the original
input; if the input starts with the literal, split it off; otherwise fail
with the original input.  When `starts_with` holds, `split_at(self.len())`
is at a char boundary and returns the literal and the remaining chars. -/
def makeLiteralMatcher {ε : Type} (lit : Str) (e : ε) (input : Str) : PRes Str Str ε :=
  if byteLen input < byteLen lit then .err input e
  else if lit.isPrefixOf input then .ok (input.drop lit.length) lit
  else .err input e

/-- `<&str as Parsable>::make_anything_matcher` (src/parsers.rs:31-42):
on empty input fail with the original input; otherwise `input.split_at(1)`
— which PANICS (modelled as `none`) when byte index 1 is not a char
boundary, i.e. when the first char is wider than one byte — and return the
first char. -/
def makeAnythingMatcher {ε : Type} (e : ε) (input : Str) : Option (PRes Str Char ε) :=
  match input with
  | [] => some (.err [] e)
  | c :: rest => if c.utf8Size = 1 then some (.ok rest c) else none

/-- `<&str as Parsable>::make_item_matcher` (src/parsers.rs:44-60): like
`make_anything_matcher` — `split_at(1)` happens before the comparison, so
the same panic (modelled as `none`) occurs for a multi-byte first char —
then succeed iff the first char equals the target, failing with the
original input otherwise. -/
def makeItemMatcher {ε : Type} (character : Char) (e : ε) (input : Str) :
    Option (PRes Str Char ε) :=
  match input with
  | [] => some (.err [] e)
  | c :: rest =>
    if c.utf8Size = 1 then
      if c = character then some (.ok rest c) else some (.err (c :: rest) e)
    else none

/-- `<&str as Parsable>::make_empty_matcher` (src/parsers.rs:62-72). -/
def makeEmptyMatcher {ε : Type} (e : ε) (input : Str) : PRes Str Unit ε :=
  if input.isEmpty then .ok input () else .err input e

/-- `Parser::seq` (src/core.rs:366-382): run self, then the second parser
on the remainder; a failure is tagged with the stage that failed. -/
def seqP {ι ω₁ ω₂ ε₁ ε₂ : Type} (p₁ : ι → PRes ι ω₁ ε₁) (p₂ : ι → PRes ι ω₂ ε₂)
    (input : ι) : PRes ι (ω₁ × ω₂) (SEither ε₁ ε₂) :=
  match p₁ input with
  | .ok rest result =>
    match p₂ rest with
    | .ok rest₂ result₂ => .ok rest₂ (result, result₂)
    | .err rest₂ e₂ => .err rest₂ (SEither.right e₂)
  | .err rest e₁ => .err rest (SEither.left e₁)

/-- `Parser::alt` (src/core.rs:425-441): run self; on failure `(rest, e1)`
run the second parser on `rest` — the remainder self's failure returned —
and pair the errors when both fail. -/
def altP {ι ω₁ ω₂ ε₁ ε₂ : Type} (p₁ : ι → PRes ι ω₁ ε₁) (p₂ : ι → PRes ι ω₂ ε₂)
    (input : ι) : PRes ι (SEither ω₁ ω₂) (ε₁ × ε₂) :=
  match p₁ input with
  | .ok rest ret => .ok rest (SEither.left ret)
  | .err rest e₁ =>
    match p₂ rest with
    | .ok rest₂ ret => .ok rest₂ (SEither.right ret)
    | .err rest₂ e₂ => .err rest₂ (e₁, e₂)

/-- `core::pure` (src/core.rs:1231-1238): succeed with the given output,
consuming nothing. -/
def pureP {ι ω ε : Type} (out : ω) (input : ι) : PRes ι ω ε := .ok input out

/-- One fuel-indexed unrolling of the `Parser::many` loop
(src/core.rs:479-509): repeat the parser until it fails, collecting the
outputs; on failure the loop exits with that failure's remainder.  The
loop has no progress check (it is commented out in the source), so a
parser that succeeds without consuming keeps the loop running; `none`
means the loop did not exit within `fuel` iterations. -/
def manyFuel {ι ω ε : Type} (p : ι → PRes ι ω ε) : Nat → ι → Option (ι × List ω)
  | 0, _ => none
  | fuel + 1, input =>
    match p input with
    | .ok rest ret =>
      match manyFuel p fuel rest with
      | some (rest', rets) => some (rest', ret :: rets)
      | none => none
    | .err rest _ => some (rest, [])

/-- `Parser::at_least_n` (src/core.rs:524-553): run the parser `n` times
(`remaining` counts down from `n`); if an attempt fails, fail with the
caller's `err` at that attempt's remainder; after `n` successes succeed
with the collected outputs. -/
def atLeastN {ι ω ε : Type} (p : ι → PRes ι ω ε) : Nat → ε → ι → PRes ι (List ω) ε
  | 0, _, input => .ok input []
  | n + 1, e, input =>
    match p input with
    | .ok rest ret =>
      match atLeastN p n e rest with
      | .ok rest' rets => .ok rest' (ret :: rets)
      | .err rest' e' => .err rest' e'
    | .err rest _ => .err rest e

/-- The loop of `Parser::exactly_n` (src/core.rs:619-636): run the parser
up to `n` times, recording the failing iteration's error in `maybe_err`
and stopping there. -/
def exactlyNLoop {ι ω ε : Type} (p : ι → PRes ι ω ε) : Nat → ι → ι × List ω × Option ε
  | 0, input => (input, [], none)
  | n + 1, input =>
    match p input with
    | .ok rest ret =>
      let (rest', rets, me) := exactlyNLoop p n rest
      (rest', ret :: rets, me)
    | .err rest e => (rest, [], some e)

/-- `Parser::exactly_n` (src/core.rs:612-652): after the loop, a recorded
iteration error is returned AS the failure error (`Err((rest, err))` with
the shadowed iteration `err`, not the caller's); otherwise the collected
outputs are returned when they number `n`, and the caller's error is the
(unreachable) fallback. -/
def exactlyN {ι ω ε : Type} (p : ι → PRes ι ω ε) (n : Nat) (e : ε) (input : ι) :
    PRes ι (List ω) ε :=
  match exactlyNLoop p n input with
  | (rest, _, some e₀) => .err rest e₀
  | (rest, rets, none) => if rets.length = n then .ok rest rets else .err rest e

/-- `Parser::backtrack` (src/core.rs:1078-1087): pass successes through;
replace a failure's remainder with the original input. -/
def backtrackP {ι ω ε : Type} (p : ι → PRes ι ω ε) (input : ι) : PRes ι ω ε :=
  match p input with
  | .ok rest ret => .ok rest ret
  | .err _ e => .err input e

/-- `Parser::or` (src/core.rs:1105-1127): run both parsers on the same
original input; return the original input as the remainder in every case,
each succeeding branch's `(remainder, output)` pair inside its `Option`
component, and the pair of errors when both fail. -/
def orP {ι ω₁ ω₂ ε₁ ε₂ : Type} (p₁ : ι → PRes ι ω₁ ε₁) (p₂ : ι → PRes ι ω₂ ε₂)
    (input : ι) : PRes ι (Option (ι × ω₁) × Option (ι × ω₂)) (ε₁ × ε₂) :=
  match p₁ input, p₂ input with
  | .ok r₁ o₁, .ok r₂ o₂ => .ok input (some (r₁, o₁), some (r₂, o₂))
  | .ok r₁ o₁, .err _ _ => .ok input (some (r₁, o₁), none)
  | .err _ _, .ok r₂ o₂ => .ok input (none, some (r₂, o₂))
  | .err _ e₁, .err _ e₂ => .err input (e₁, e₂)

/-- The remainder component of a parse outcome (both constructors carry
one). -/
def remOf {ι ω ε : Type} : PRes ι ω ε → ι
  | .ok rest _ => rest
  | .err rest _ => rest

/-- The `(remainder, output)` pair of a successful outcome, `none` for a
failure — the shape `Parser::or` stores per branch. -/
def okPart {ι ω ε : Type} : PRes ι ω ε → Option (ι × ω)
  | .ok rest out => some (rest, out)
  | .err _ _ => none

/-- Association-list lookup, the model of a `HashMap` `get` keyed by the
input (src/memo.rs `MemoKey`: the `parser_id` component is constant for a
single parser and is dropped). -/
def findCache {ι α : Type} [DecidableEq ι] : List (ι × α) → ι → Option α
  | [], _ => none
  | (j, r) :: rest, i => if i = j then some r else findCache rest i

/-- `MemoizedParser::parse` (src/memo.rs:143-178): look the input up in
the cache; on a hit return the stored outcome verbatim; on a miss invoke
the wrapped parser, store its outcome and return it.  The `Bool` records
whether the wrapped parser was invoked (a map insert is modelled by
consing, `findCache` seeing the newest entry). -/
def memoizedParse {ι ω ε : Type} [DecidableEq ι] (p : ι → PRes ι ω ε)
    (cache : List (ι × PRes ι ω ε)) (input : ι) :
    PRes ι ω ε × List (ι × PRes ι ω ε) × Bool :=
  match findCache cache input with
  | some r => (r, cache, false)
  | none => (p input, (input, p input) :: cache, true)

/-- A sequence of calls to one memoized parser sharing its cache
(`MemoizedParser::new` starts from an empty cache): the outcomes in order,
the final cache, and the inputs on which the wrapped parser was actually
invoked. -/
def runCalls {ι ω ε : Type} [DecidableEq ι] (p : ι → PRes ι ω ε) :
    List ι → List (ι × PRes ι ω ε) →
    List (PRes ι ω ε) × List (ι × PRes ι ω ε) × List ι
  | [], cache => ([], cache, [])
  | i :: is, cache =>
    let (r, cache₁, invoked) := memoizedParse p cache i
    let (rs, cache₂, invs) := runCalls p is cache₁
    (r :: rs, cache₂, (if invoked then [i] else []) ++ invs)

/-- `GrowthStatus` (src/packrat.rs:17-24). -/
inductive GStatus : Type where
  | growing
  | stable
  | notInvolved
deriving DecidableEq, Repr

/-- `PackratResult` (src/packrat.rs:37-44), an entry of the memo table. -/
inductive MemoEntry (ω ε : Type) : Type where
  | success (rest : Str) (out : ω)
  | failure (rest : Str) (e : ε)
  | evaluating
deriving DecidableEq, Repr

/-- `PackratState` (src/packrat.rs:61-73) specialised to a single rule
over `&str` input: the memo table keyed by input position, the rule's
`RecursionState` — its detection position and `GrowthStatus`; the
`involved` flag is always `true` and the `involved_set` is the singleton
of the rule, so neither is carried — and the call-stack, whose entries
are all this rule's id, so only its depth is carried
(`is_left_recursive` = depth positive). -/
structure PKSt (ω ε : Type) : Type where
  memo : List (Str × MemoEntry ω ε)
  recSt : Option (Str × GStatus)
  stack : Nat
deriving DecidableEq, Repr

/-- `PackratState::new` (src/packrat.rs:82-88). -/
def pkInit {ω ε : Type} : PKSt ω ε := ⟨[], none, 0⟩

/-- Memo-table lookup (newest entry wins, as for a `HashMap` whose insert
replaces). -/
def findMemo {ω ε : Type} : List (Str × MemoEntry ω ε) → Str → Option (MemoEntry ω ε)
  | [], _ => none
  | (j, r) :: rest, i => if i = j then some r else findMemo rest i

/-- Memo-table insert, modelled by consing (see `findMemo`). -/
def insertMemo {ω ε : Type} (memo : List (Str × MemoEntry ω ε)) (i : Str)
    (entry : MemoEntry ω ε) : List (Str × MemoEntry ω ε) :=
  (i, entry) :: memo

/-- The scan of src/packrat.rs:231-244: the first `Success` entry of the
memo table (all entries belong to the one rule; a `HashMap`'s iteration
order is arbitrary, here list order). -/
def firstSuccess {ω ε : Type} : List (Str × MemoEntry ω ε) → Option (Str × ω)
  | [] => none
  | (_, .success rest out) :: _ => some (rest, out)
  | _ :: rest => firstSuccess rest

/-- `is_more_matched` (src/packrat.rs:487-497) for `&str` input: more
input was matched iff the new remainder is byte-shorter
(`input_len` = `str::len`). -/
def isMoreMatched (prevRest newRest : Str) : Bool :=
  byteLen newRest < byteLen prevRest

/-- Record the current best result in the memo table before re-invoking
the rule (src/packrat.rs:305-312). -/
def seedBest {ω ε : Type} (st : PKSt ω ε) (input rest : Str) (out : ω) : PKSt ω ε :=
  { st with memo := insertMemo st.memo input (.success rest out) }

/-- `recursion_state.status = GrowthStatus::Stable`
(src/packrat.rs:323,329), written through the reference held across the
grow loop. -/
def setStable {ω ε : Type} (st : PKSt ω ε) : PKSt ω ε :=
  { st with recSt := st.recSt.map (fun p => (p.1, GStatus.stable)) }

/-- `PackratState::exit_rule` (src/packrat.rs:96-98). -/
def popRule {ω ε : Type} (st : PKSt ω ε) : PKSt ω ε :=
  { st with stack := st.stack - 1 }

/-- The result of a fueled, panicking computation: `none` = fuel ran out;
`Except.error` = a Rust panic with its message; `Except.ok` = a normal
return. -/
abbrev PkM (α : Type) : Type := Option (Except String α)

/-- The underlying parser of a packrat rule: given the packrat-wrapped
rule itself (which its recursive references call), it maps the threaded
state and input to an outcome. -/
abbrev Up (ω ε : Type) : Type :=
  (PKSt ω ε → Str → PkM (PKSt ω ε × PRes Str ω ε)) →
    PKSt ω ε → Str → PkM (PKSt ω ε × PRes Str ω ε)

/-- The panic message of `string_to_error` (src/packrat.rs:385) for an
unsupported error type. -/
def convMsg : String :=
  "Cannot convert string to error type. Implement a custom error conversion for your error type."

/-- `create_error`/`string_to_error` applied and returned as a failure at
`input` with state `st`: `s2e` is the branch of `string_to_error`'s
`TypeId` dispatch for the error type — `some` for `&str`/`String`, `none`
(the `panic!`) otherwise. -/
def pkErr {ω ε : Type} (s2e : String → Option ε) (st : PKSt ω ε) (input : Str)
    (msg : String) : PkM (PKSt ω ε × PRes Str ω ε) :=
  match s2e msg with
  | some e => some (.ok (st, .err input e))
  | none => some (.error convMsg)

/-- The seed-and-grow loop of `packrat_parse` (src/packrat.rs:304-333):
record the current best in the memo table, re-invoke the rule; when the
re-invocation succeeds consuming strictly more input (`is_more_matched`)
it becomes the best and the loop repeats; otherwise — it consumed no more,
or failed outright — mark `Stable` and return the best-so-far. -/
def growLoopF {ω ε : Type} (reparse : PKSt ω ε → Str → PkM (PKSt ω ε × PRes Str ω ε)) :
    Nat → PKSt ω ε → Str → Str → ω → PkM (PKSt ω ε × Str × ω)
  | 0, _, _, _, _ => none
  | fuel + 1, st, input, prevRest, prevOut =>
    match reparse (seedBest st input prevRest prevOut) input with
    | none => none
    | some (.error m) => some (.error m)
    | some (.ok (st₂, .ok newRest newOut)) =>
      if isMoreMatched prevRest newRest then
        growLoopF reparse fuel st₂ input newRest newOut
      else some (.ok (setStable st₂, prevRest, prevOut))
    | some (.ok (st₂, .err _ _)) => some (.ok (setStable st₂, prevRest, prevOut))

/-- `PackratParserImpl::packrat_parse` (src/packrat.rs:182-359) for a
single rule: memo lookup (a `Success`/`Failure` entry is returned
verbatim; an `Evaluating` entry is left recursion — on first detection the
`Growing` recursion state is created and the designated seed failure
returned, afterwards the current best success, if any, is answered);
then the call-stack reentrancy check; otherwise push the rule, mark
`Evaluating`, run the underlying parser, record its outcome, grow a
success of a `Growing` rule to the fixed point, and pop the rule. -/
def packratParse {ω ε : Type} (up : Up ω ε) (s2e : String → Option ε) :
    Nat → PKSt ω ε → Str → PkM (PKSt ω ε × PRes Str ω ε)
  | 0, _, _ => none
  | fuel + 1, st, input =>
    match findMemo st.memo input with
    | some (.success rest out) => some (.ok (st, .ok rest out))
    | some (.failure rest e) => some (.ok (st, .err rest e))
    | some .evaluating =>
      match st.recSt with
      | none =>
        pkErr s2e { st with recSt := some (input, GStatus.growing) } input
          "Left-recursive rule encountered"
      | some (_, status) =>
        if status = GStatus.growing then
          match firstSuccess st.memo with
          | some (rest, out) => some (.ok (st, .ok rest out))
          | none => pkErr s2e st input "Left-recursive rule not yet resolved"
        else pkErr s2e st input "Left-recursive rule reached fixed point"
    | none =>
      if st.stack > 0 then
        pkErr s2e { st with memo := insertMemo st.memo input .evaluating } input
          "Left-recursive rule detected"
      else
        let st₁ : PKSt ω ε :=
          { st with stack := st.stack + 1, memo := insertMemo st.memo input .evaluating }
        match up (fun s i => packratParse up s2e fuel s i) st₁ input with
        | none => none
        | some (.error m) => some (.error m)
        | some (.ok (st₂, .ok rest out)) =>
          let st₃ : PKSt ω ε :=
            { st₂ with memo := insertMemo st₂.memo input (.success rest out) }
          match st₃.recSt with
          | some (_, status) =>
            if status = GStatus.growing then
              match growLoopF (up (fun s i => packratParse up s2e fuel s i)) fuel
                  st₃ input rest out with
              | none => none
              | some (.error m) => some (.error m)
              | some (.ok (st₄, bestRest, bestOut)) =>
                some (.ok (popRule st₄, .ok bestRest bestOut))
            else some (.ok (popRule st₃, .ok rest out))
          | none => some (.ok (popRule st₃, .ok rest out))
        | some (.ok (st₂, .err rest e)) =>
          some (.ok
            (popRule { st₂ with memo := insertMemo st₂.memo input (.failure rest e) },
              .err rest e))

/-- The `&str`/`String` branch of `string_to_error`
(src/packrat.rs:376-382): the message itself becomes the error. -/
def stringToErrorString : String → Option String := fun msg => some msg

/-- An error type that is neither `&str` nor `String`, for which
`string_to_error` (src/packrat.rs:383-386) takes the `panic!` branch. -/
inductive CustomErr : Type where
  | mk
deriving DecidableEq, Repr

/-- The `panic!` branch of `string_to_error` (src/packrat.rs:383-386) for
a custom error type: no error value is produced. -/
def stringToErrorCustom : String → Option CustomErr := fun _ => none

/-- The expression AST of the left-recursive test grammar
`Expr -> Expr '+' Term | Term` (the doc example of
src/packrat.rs:425-448, with a digit for `num`). -/
inductive Ast : Type where
  | num (n : Nat)
  | add (l r : Ast)
deriving DecidableEq, Repr

/-- The `Term` parser of the grammar: a literal `"1"` mapped to a number
leaf. -/
def termP (input : Str) : PRes Str Ast String :=
  match makeLiteralMatcher (chars "1") "Expected number" input with
  | .ok rest _ => .ok rest (Ast.num 1)
  | .err rest e => .err rest e

/-- The `"+"` literal parser of the grammar. -/
def plusP (input : Str) : PRes Str Str String :=
  makeLiteralMatcher (chars "+") "Expected +" input

/-- The underlying parser of the packrat rule `expr`, composed exactly as
the doc example of src/packrat.rs:432-448:
`expr.seq("+".seq(term)).map(add).alt(term).map(fold).map_err(|_| "term failed")`.
The `seq`/`alt` plumbing follows src/core.rs: a `seq` failure carries the
failing stage's remainder, and `alt` runs its second branch on the
remainder of the first branch's failure; `map_err` collapses every
composed error to `"term failed"`. -/
def exprUp : Up Ast String := fun recurse st input =>
  match recurse st input with
  | none => none
  | some (.error m) => some (.error m)
  | some (.ok (st', res)) =>
    match res with
    | .ok r₁ e₁ =>
      match plusP r₁ with
      | .ok r₂ _ =>
        match termP r₂ with
        | .ok r₃ t => some (.ok (st', .ok r₃ (Ast.add e₁ t)))
        | .err r₃ _ =>
          match termP r₃ with
          | .ok r' t => some (.ok (st', .ok r' t))
          | .err r' _ => some (.ok (st', .err r' "term failed"))
      | .err r₂ _ =>
        match termP r₂ with
        | .ok r' t => some (.ok (st', .ok r' t))
        | .err r' _ => some (.ok (st', .err r' "term failed"))
    | .err r₁ _ =>
      match termP r₁ with
      | .ok r' t => some (.ok (st', .ok r' t))
      | .err r' _ => some (.ok (st', .err r' "term failed"))

/-- A left-recursive rule with no successful base case, over the custom
error type: `R -> R "x"`, i.e. `recurse.seq("x")` with the stage errors
folded to `CustomErr.mk`. -/
def upNoBase : Up Unit CustomErr := fun recurse st input =>
  match recurse st input with
  | none => none
  | some (.error m) => some (.error m)
  | some (.ok (st', .ok r₁ _)) =>
    match makeLiteralMatcher (chars "x") CustomErr.mk r₁ with
    | .ok r₂ _ => some (.ok (st', .ok r₂ ()))
    | .err r₂ _ => some (.ok (st', .err r₂ CustomErr.mk))
  | some (.ok (st', .err r₁ _)) => some (.ok (st', .err r₁ CustomErr.mk))

/-- The same base-case-free rule `R -> R "x"` over `String` errors,
propagating the failing stage's error (`seq` + `map_err(fold)` per
src/core.rs). -/
def upNoBaseS : Up Unit String := fun recurse st input =>
  match recurse st input with
  | none => none
  | some (.error m) => some (.error m)
  | some (.ok (st', .ok r₁ _)) =>
    match makeLiteralMatcher (chars "x") "Expected x" r₁ with
    | .ok r₂ _ => some (.ok (st', .ok r₂ ()))
    | .err r₂ e => some (.ok (st', .err r₂ e))
  | some (.ok (st', .err r₁ e)) => some (.ok (st', .err r₁ e))

/-- No entry of a packrat memo table is a `Success`: the invariant of a
rule whose underlying parser never produces a successful base case. -/
def noSuccessMemo {ω ε : Type} (memo : List (Str × MemoEntry ω ε)) : Prop :=
  ∀ (i rest : Str) (out : ω), (i, MemoEntry.success rest out) ∉ memo

/-- A recursion callback that always fails ordinarily: on every
success-free state it either runs out of fuel or returns a normal parse
failure — never a panic, never a success — leaving the memo table
success-free.  This is how the packrat wrapper itself behaves for a rule
with no successful base case. -/
def FailingCallback {ω : Type}
    (recurse : PKSt ω String → Str → PkM (PKSt ω String × PRes Str ω String)) : Prop :=
  ∀ (st : PKSt ω String) (input : Str), noSuccessMemo st.memo →
    recurse st input = none ∨
    ∃ (st' : PKSt ω String) (rest : Str) (e : String),
      recurse st input = some (Except.ok (st', PRes.err rest e)) ∧ noSuccessMemo st'.memo

/-- A rule that never produces a successful base case: whenever its
recursive references resolve to an always-ordinarily-failing callback,
the underlying parser itself always fails ordinarily (it neither panics
nor succeeds, and — touching the shared cache only through the wrapper —
cannot mint success entries). -/
def FailingRule {ω : Type} (up : Up ω String) : Prop :=
  ∀ recurse, FailingCallback recurse → FailingCallback (up recurse)

/-- The sequence of two literal matchers `"ab".seq("cd")`, a parser whose
failure at the second stage has consumed the first literal. -/
def abcdSeq : Str → PRes Str (Str × Str) (SEither String String) :=
  seqP (makeLiteralMatcher (chars "ab") "no ab") (makeLiteralMatcher (chars "cd") "no cd")

/-- A literal matcher for `"ab"`, the alternative branch used against
`abcdSeq`. -/
def abLit : Str → PRes Str Str String :=
  makeLiteralMatcher (chars "ab") "no ab2"

/-- The literal matcher for `"a"` with error `"No a"`, the parser of the
repetition tests (src/tests.rs:102-122). -/
def aLit : Str → PRes Str Str String :=
  makeLiteralMatcher (chars "a") "No a"

/-- One unrolling of `manyFuel` at positive fuel, as an equation. -/
theorem manyFuel_succ {ι ω ε : Type} (p : ι → PRes ι ω ε) (n : Nat) (i : ι) :
    manyFuel p (n + 1) i =
      (match p i with
        | .ok rest ret =>
          match manyFuel p n rest with
          | some (rest', rets) => some (rest', ret :: rets)
          | none => none
        | .err rest _ => some (rest, [])) := rfl

/-- The `many` loop over `pure` never exits within any fuel: `pure`
succeeds without consuming, and the loop's progress check is commented
out in the source. -/
theorem manyFuel_pure_none {ι ε : Type} (i : ι) :
    ∀ fuel : Nat, manyFuel (pureP (ε := ε) ()) fuel i = none := by
  intro fuel
  induction fuel with
  | zero => rfl
  | succ n ih => simp [manyFuel, pureP, ih]

/-- When every success of `p` strictly shrinks the input, the `many` loop
exits within `length + 1` iterations. -/
theorem many_exits_of_consuming {α ω ε : Type}
    (p : List α → PRes (List α) ω ε)
    (hp : ∀ i' r o, p i' = PRes.ok r o → r.length < i'.length) :
    ∀ (n : Nat) (i : List α), i.length ≤ n →
      ∃ res, manyFuel p (n + 1) i = some res := by
  intro n
  induction n with
  | zero =>
    intro i hlen
    cases hpi : p i with
    | ok r o =>
      have := hp i r o hpi
      omega
    | err r e => exact ⟨(r, []), by rw [manyFuel_succ, hpi]⟩
  | succ k ih =>
    intro i hlen
    cases hpi : p i with
    | ok r o =>
      have hr : r.length ≤ k := by have := hp i r o hpi; omega
      obtain ⟨res, hres⟩ := ih r hr
      refine ⟨(res.1, o :: res.2), ?_⟩
      rw [manyFuel_succ, hpi]
      dsimp only
      rw [hres]
    | err r e => exact ⟨(r, []), by rw [manyFuel_succ, hpi]⟩

/-- Every success of the `"a"` literal matcher consumes one char. -/
theorem aLit_consumes : ∀ i r o, aLit i = PRes.ok r o → r.length < i.length := by
  intro i r o h
  unfold aLit makeLiteralMatcher at h
  split at h
  · cases h
  · split at h
    · cases h
      cases i with
      | nil =>
        rename_i hpre
        simp [List.isPrefixOf, chars] at hpre
      | cons c t => simp [chars]
    · cases h

/-- One unrolling of `atLeastN` at positive count, as an equation. -/
theorem atLeastN_succ {ι ω ε : Type} (p : ι → PRes ι ω ε) (n : Nat) (e : ε) (i : ι) :
    atLeastN p (n + 1) e i =
      (match p i with
        | .ok rest ret =>
          match atLeastN p n e rest with
          | .ok rest' rets => PRes.ok rest' (ret :: rets)
          | .err rest' e' => PRes.err rest' e'
        | .err rest _ => PRes.err rest e) := rfl

/-- A cache is sound for a pure parser when every stored outcome is the
parser's outcome at that input. -/
def soundCache {ι ω ε : Type} [DecidableEq ι] (p : ι → PRes ι ω ε)
    (cache : List (ι × PRes ι ω ε)) : Prop :=
  ∀ i r, findCache cache i = some r → r = p i

/-- The invariant of a call sequence through `memoizedParse`: starting
from a sound cache, every outcome is the wrapped parser's, the cache
stays sound and only grows, and the wrapped parser is invoked only on
inputs absent from the cache at the start, each at most once. -/
theorem runCalls_invariant {ι ω ε : Type} [DecidableEq ι] (p : ι → PRes ι ω ε) :
    ∀ (inputs : List ι) (cache : List (ι × PRes ι ω ε)), soundCache p cache →
      (runCalls p inputs cache).1 = inputs.map p ∧
      soundCache p (runCalls p inputs cache).2.1 ∧
      (runCalls p inputs cache).2.2.Nodup ∧
      (∀ j ∈ (runCalls p inputs cache).2.2, findCache cache j = none) ∧
      (∀ j r, findCache cache j = some r →
        findCache (runCalls p inputs cache).2.1 j = some r) := by
  intro inputs
  induction inputs with
  | nil =>
    intro cache hs
    refine ⟨rfl, hs, List.nodup_nil, ?_, ?_⟩
    · intro j hj; simp [runCalls] at hj
    · intro j r h; exact h
  | cons i is ih =>
    intro cache hs
    cases hfc : findCache cache i with
    | some r =>
      have hres : runCalls p (i :: is) cache =
          (r :: (runCalls p is cache).1, (runCalls p is cache).2.1,
            (runCalls p is cache).2.2) := by
        simp [runCalls, memoizedParse, hfc]
      obtain ⟨h1, h2, h3, h4, h5⟩ := ih cache hs
      rw [hres]
      exact ⟨by simp [h1, hs i r hfc], h2, h3, h4, h5⟩
    | none =>
      have hs' : soundCache p ((i, p i) :: cache) := by
        intro j r hj
        unfold findCache at hj
        by_cases hji : j = i
        · subst hji; simp at hj; exact hj.symm
        · simp [hji] at hj; exact hs j r hj
      have hres : runCalls p (i :: is) cache =
          (p i :: (runCalls p is ((i, p i) :: cache)).1,
            (runCalls p is ((i, p i) :: cache)).2.1,
            i :: (runCalls p is ((i, p i) :: cache)).2.2) := by
        simp [runCalls, memoizedParse, hfc]
      obtain ⟨h1, h2, h3, h4, h5⟩ := ih ((i, p i) :: cache) hs'
      rw [hres]
      refine ⟨by simp [h1], h2, ?_, ?_, ?_⟩
      · refine List.nodup_cons.mpr ⟨?_, h3⟩
        intro hmem
        have := h4 i hmem
        simp [findCache] at this
      · intro j hj
        rcases List.mem_cons.mp hj with hj | hj
        · subst hj; exact hfc
        · have := h4 j hj
          unfold findCache at this
          by_cases hji : j = i
          · subst hji; simp at this
          · simpa [hji] using this
      · intro j r hj
        have : findCache ((i, p i) :: cache) j = some r := by
          unfold findCache
          by_cases hji : j = i
          · subst hji; rw [hfc] at hj; cases hj
          · simpa [hji] using hj
        exact h5 j r this

/-- The seed-and-grow loop returns a best result whose re-invocation — at
the state seeded with that best — either fails or does not consume
strictly more input than the best (`is_more_matched` false): the loop
stops exactly there. -/
theorem growLoopF_stop {ω ε : Type}
    (reparse : PKSt ω ε → Str → PkM (PKSt ω ε × PRes Str ω ε)) :
    ∀ (fuel : Nat) (st : PKSt ω ε) (input prevRest : Str) (prevOut : ω)
      (stF : PKSt ω ε) (bestRest : Str) (bestOut : ω),
      growLoopF reparse fuel st input prevRest prevOut =
        some (Except.ok (stF, bestRest, bestOut)) →
      ∃ (st₁ st₂ : PKSt ω ε) (res : PRes Str ω ε),
        reparse (seedBest st₁ input bestRest bestOut) input =
          some (Except.ok (st₂, res)) ∧
        ∀ newRest newOut, res = PRes.ok newRest newOut →
          isMoreMatched bestRest newRest = false := by
  intro fuel
  induction fuel with
  | zero => intro st input pR pO stF bR bO h; simp [growLoopF] at h
  | succ n ih =>
    intro st input pR pO stF bR bO h
    unfold growLoopF at h
    cases hrep : reparse (seedBest st input pR pO) input with
    | none => rw [hrep] at h; simp at h
    | some x =>
      rw [hrep] at h
      cases x with
      | error m => simp at h
      | ok y =>
        obtain ⟨st₂, res⟩ := y
        cases res with
        | ok newRest newOut =>
          by_cases hm : isMoreMatched pR newRest
          · simp [hm] at h
            exact ih st₂ input newRest newOut stF bR bO h
          · simp [hm] at h
            obtain ⟨hst, hbR, hbO⟩ := h
            subst hbR; subst hbO
            refine ⟨st, st₂, PRes.ok newRest newOut, hrep, ?_⟩
            intro nR nO hres
            cases hres
            simpa using hm
        | err r e =>
          simp at h
          obtain ⟨hst, hbR, hbO⟩ := h
          subst hbR; subst hbO
          exact ⟨st, st₂, PRes.err r e, hrep, by intro nR nO hres; cases hres⟩

/-- Claim C1: for the left-recursive grammar `Expr -> Expr '+' Term | Term`
wrapped with packrat memoization, parsing `"1+1+1"` terminates (within
finite fuel) and returns the left-associative result `(1+1)+1` with the
whole input consumed; and the seed-and-grow loop stops exactly at the
first re-invocation that no longer consumes strictly more input than the
best-so-far (compared by remaining byte length, a failed re-invocation
consuming no more). -/
theorem packrat_left_recursion_seed_and_grow :
    (∃ st : PKSt Ast String,
      packratParse exprUp stringToErrorString 12 pkInit (chars "1+1+1") =
        some (Except.ok
          (st, PRes.ok [] (Ast.add (Ast.add (Ast.num 1) (Ast.num 1)) (Ast.num 1))))) ∧
    (∀ (ω ε : Type) (reparse : PKSt ω ε → Str → PkM (PKSt ω ε × PRes Str ω ε))
        (fuel : Nat) (st stF : PKSt ω ε) (input prevRest bestRest : Str)
        (prevOut bestOut : ω),
      growLoopF reparse fuel st input prevRest prevOut =
        some (Except.ok (stF, bestRest, bestOut)) →
      ∃ (st₁ st₂ : PKSt ω ε) (res : PRes Str ω ε),
        reparse (seedBest st₁ input bestRest bestOut) input =
          some (Except.ok (st₂, res)) ∧
        ∀ newRest newOut, res = PRes.ok newRest newOut →
          isMoreMatched bestRest newRest = false) :=
  ⟨⟨_, rfl⟩, fun _ _ reparse fuel st stF input pR bR pO bO h =>
    growLoopF_stop reparse fuel st input pR pO stF bR bO h⟩

/-- Claim C2: a pure parser wrapped with `.memoize()` returns, on every
call of any call sequence, exactly the wrapped parser's outcome for that
input, and the wrapped parser is invoked at most once per distinct input
(the invoked inputs carry no duplicate). -/
theorem memoize_transparency {ι ω ε : Type} [DecidableEq ι] (p : ι → PRes ι ω ε)
    (inputs : List ι) :
    (runCalls p inputs []).1 = inputs.map p ∧ (runCalls p inputs []).2.2.Nodup := by
  have h := runCalls_invariant p inputs [] (by intro i r hc; simp [findCache] at hc)
  exact ⟨h.1, h.2.2.1⟩

/-- Claim C3, counterexample: `"ab".seq("cd")` fails on `"abXY"` with
remainder `"XY"`, and `alt` then runs the second branch on that remainder
— the composed parse fails even though the second branch succeeds on the
original input, so the second branch is not attempted from the original
position. -/
theorem alt_original_input_cex :
    altP abcdSeq abLit (chars "abXY") =
      PRes.err (chars "XY") (SEither.right "no cd", "no ab2") ∧
    abLit (chars "abXY") = PRes.ok (chars "XY") (chars "ab") := by decide

/-- Claim C3, amended: when the first parser fails with remainder `r`,
`alt` runs the second parser on `r` — the remainder the failure returned,
which equals the original input only when the first parser's failure
consumed nothing. -/
theorem alt_runs_p2_on_failure_remainder {ι ω₁ ω₂ ε₁ ε₂ : Type}
    (p₁ : ι → PRes ι ω₁ ε₁) (p₂ : ι → PRes ι ω₂ ε₂) (i r : ι) (e₁ : ε₁)
    (h : p₁ i = PRes.err r e₁) :
    altP p₁ p₂ i =
      (match p₂ r with
        | .ok r₂ o => PRes.ok r₂ (SEither.right o)
        | .err r₂ e₂ => PRes.err r₂ (e₁, e₂)) := by
  unfold altP
  rw [h]

/-- Witness for the amended claim C3 at `"abXY"`. -/
theorem alt_runs_p2_witness :
    abcdSeq (chars "abXY") = PRes.err (chars "XY") (SEither.right "no cd") ∧
    altP abcdSeq abLit (chars "abXY") =
      PRes.err (chars "XY") (SEither.right "no cd", "no ab2") :=
  ⟨by decide,
    (alt_runs_p2_on_failure_remainder abcdSeq abLit (chars "abXY") (chars "XY")
      (SEither.right "no cd") (by decide)).trans (by decide)⟩

/-- Claim C4: the `&str` anything/item matchers panic (modelled as
`none`) on an input whose first char is multi-byte — `input.split_at(1)`
is not at a char boundary — while the literal and empty matchers are
total on the same input. -/
theorem string_matchers_multibyte :
    makeAnythingMatcher "Expected any character" (chars "é") = none ∧
    makeItemMatcher 'x' "Expected x" (chars "éx") = none ∧
    makeLiteralMatcher (chars "é") "no lit" (chars "éz") =
      PRes.ok (chars "z") (chars "é") ∧
    makeEmptyMatcher "not empty" (chars "é") = PRes.err (chars "é") "not empty" := by
  decide

/-- Claim C5, counterexample: over the `pure` parser — which succeeds
consuming nothing — the `many` loop never exits, for any amount of fuel:
`P.many().parse(I)` does not terminate for every parser `P`. -/
theorem many_nontermination_cex :
    ¬ ∃ (fuel : Nat) (res : Str × List Unit),
        manyFuel (pureP (ε := String) ()) fuel (chars "x") = some res := by
  rintro ⟨fuel, res, h⟩
  rw [manyFuel_pure_none] at h
  cases h

/-- Claim C5, amended: `P.many().parse(I)` terminates whenever every
success of `P` consumes at least one element; with the loop's progress
check commented out, a parser that can succeed consuming nothing makes
the loop run forever. -/
theorem many_terminates_when_consuming {α ω ε : Type}
    (p : List α → PRes (List α) ω ε) (i : List α)
    (hp : ∀ i' r o, p i' = PRes.ok r o → r.length < i'.length) :
    ∃ res, manyFuel p (i.length + 1) i = some res :=
  many_exits_of_consuming p hp i.length i (Nat.le_refl _)

/-- Witness for the amended claim C5 at the `"a"` matcher over `"aab"`. -/
theorem many_terminates_witness :
    ∃ res, manyFuel aLit ((chars "aab").length + 1) (chars "aab") = some res :=
  many_terminates_when_consuming aLit (chars "aab") aLit_consumes

/-- Claim C6, counterexample: the `"a"` matcher with `.at_least_n(2, e)`
over `"aaa"` succeeds with only the first two matches and remainder
`"a"`, while `many` over the same input collects three — `at_least_n`
does not collect all successive matches. -/
theorem at_least_n_cex :
    atLeastN aLit 2 "Need at least 2" (chars "aaa") =
      PRes.ok (chars "a") [chars "a", chars "a"] ∧
    manyFuel aLit 4 (chars "aaa") =
      some (([] : Str), [chars "a", chars "a", chars "a"]) := by decide

/-- Claim C6, amended: `at_least_n(n, err)` stops after exactly `n`
matches — every success collects exactly `n` outputs, not all successive
matches — and fails with the caller's `err` when fewer than `n` matches
are obtained, the failure keeping the failing attempt's remainder. -/
theorem at_least_n_collects_exactly_n {ι ω ε : Type} (p : ι → PRes ι ω ε)
    (n : Nat) (e : ε) (i : ι) :
    (∀ r out, atLeastN p n e i = PRes.ok r out → out.length = n) ∧
    (∀ r e', atLeastN p n e i = PRes.err r e' → e' = e) := by
  induction n generalizing i with
  | zero =>
    constructor
    · intro r out h
      have h' : PRes.ok (ι := ι) (ε := ε) i ([] : List ω) = PRes.ok r out := h
      cases h'; rfl
    · intro r e' h
      have h' : PRes.ok (ι := ι) (ε := ε) i ([] : List ω) = PRes.err r e' := h
      cases h'
  | succ k ih =>
    constructor
    · intro r out h
      rw [atLeastN_succ] at h
      cases hpi : p i with
      | ok rest ret =>
        rw [hpi] at h
        dsimp only at h
        cases hrec : atLeastN p k e rest with
        | ok rest' rets =>
          rw [hrec] at h
          cases h
          have hlen := (ih rest).1 _ _ hrec
          simp [hlen]
        | err rest' e' => rw [hrec] at h; cases h
      | err rest e' => rw [hpi] at h; cases h
    · intro r e' h
      rw [atLeastN_succ] at h
      cases hpi : p i with
      | ok rest ret =>
        rw [hpi] at h
        dsimp only at h
        cases hrec : atLeastN p k e rest with
        | ok rest' rets => rw [hrec] at h; cases h
        | err rest' e'' =>
          rw [hrec] at h
          cases h
          exact (ih rest).2 _ _ hrec
      | err rest e'' => rw [hpi] at h; cases h; rfl

/-- Claim C7: the `"a"` matcher with `.exactly_n(3, "need 3")` over
`"aa"` fails with the underlying matcher's own error `"No a"` from the
iteration that fell short — not the caller-supplied `"need 3"` that the
source's doctest and test suite expect. -/
theorem exactly_n_shortfall_error :
    exactlyN aLit 3 "need 3" (chars "aa") = PRes.err [] "No a" ∧
    ("No a" : String) ≠ "need 3" := by decide

/-- Claim C8, counterexample: a packrat rule over an error type that is
neither `&str` nor `String`, detected as left-recursive, panics in
`string_to_error` (the modelled `Except.error` with the source's panic
message) instead of returning an ordinary failure. -/
theorem packrat_custom_error_panic_cex :
    packratParse upNoBase stringToErrorCustom 6 pkInit (chars "1") =
      some (Except.error convMsg) := rfl

/-- `create_error` over the `String` branch of `string_to_error` is an
ordinary failure with the message, never a panic. -/
theorem pkErr_string {ω : Type} (st : PKSt ω String) (input : Str) (msg : String) :
    pkErr stringToErrorString st input msg = some (Except.ok (st, PRes.err input msg)) := rfl

/-- A memo-table lookup only returns stored entries. -/
theorem findMemo_mem {ω ε : Type} :
    ∀ (memo : List (Str × MemoEntry ω ε)) (i : Str) (e : MemoEntry ω ε),
      findMemo memo i = some e → (i, e) ∈ memo := by
  intro memo
  induction memo with
  | nil => intro i e h; simp [findMemo] at h
  | cons hd tl ih =>
    intro i e h
    unfold findMemo at h
    by_cases hji : i = hd.1
    · subst hji
      simp at h
      subst h
      exact List.mem_cons_self _ _
    · rcases hd with ⟨j, r⟩
      simp only at hji
      rw [if_neg hji] at h
      exact List.mem_cons_of_mem _ (ih i e h)

/-- The memo-table scan finds no `Success` entry in a success-free
table. -/
theorem firstSuccess_of_noSuccess {ω ε : Type} :
    ∀ (memo : List (Str × MemoEntry ω ε)), noSuccessMemo memo → firstSuccess memo = none := by
  intro memo
  induction memo with
  | nil => intro _; rfl
  | cons hd tl ih =>
    intro hns
    rcases hd with ⟨j, e⟩
    cases e with
    | success rest out => exact absurd (List.mem_cons_self _ _) (hns j rest out)
    | failure rest e' =>
      unfold firstSuccess
      exact ih (fun i r o hmem => hns i r o (List.mem_cons_of_mem _ hmem))
    | evaluating =>
      unfold firstSuccess
      exact ih (fun i r o hmem => hns i r o (List.mem_cons_of_mem _ hmem))

/-- One unrolling of `packratParse` at positive fuel, as an equation. -/
theorem packratParse_succ {ω ε : Type} (up : Up ω ε) (s2e : String → Option ε)
    (fuel : Nat) (st : PKSt ω ε) (input : Str) :
    packratParse up s2e (fuel + 1) st input =
      (match findMemo st.memo input with
      | some (.success rest out) => some (.ok (st, .ok rest out))
      | some (.failure rest e) => some (.ok (st, .err rest e))
      | some .evaluating =>
        match st.recSt with
        | none =>
          pkErr s2e { st with recSt := some (input, GStatus.growing) } input
            "Left-recursive rule encountered"
        | some (_, status) =>
          if status = GStatus.growing then
            match firstSuccess st.memo with
            | some (rest, out) => some (.ok (st, .ok rest out))
            | none => pkErr s2e st input "Left-recursive rule not yet resolved"
          else pkErr s2e st input "Left-recursive rule reached fixed point"
      | none =>
        if st.stack > 0 then
          pkErr s2e { st with memo := insertMemo st.memo input .evaluating } input
            "Left-recursive rule detected"
        else
          let st₁ : PKSt ω ε :=
            { st with stack := st.stack + 1, memo := insertMemo st.memo input .evaluating }
          match up (fun s i => packratParse up s2e fuel s i) st₁ input with
          | none => none
          | some (.error m) => some (.error m)
          | some (.ok (st₂, .ok rest out)) =>
            let st₃ : PKSt ω ε :=
              { st₂ with memo := insertMemo st₂.memo input (.success rest out) }
            match st₃.recSt with
            | some (_, status) =>
              if status = GStatus.growing then
                match growLoopF (up (fun s i => packratParse up s2e fuel s i)) fuel
                    st₃ input rest out with
                | none => none
                | some (.error m) => some (.error m)
                | some (.ok (st₄, bestRest, bestOut)) =>
                  some (.ok (popRule st₄, .ok bestRest bestOut))
              else some (.ok (popRule st₃, .ok rest out))
            | none => some (.ok (popRule st₃, .ok rest out))
          | some (.ok (st₂, .err rest e)) =>
            some (.ok
              (popRule { st₂ with memo := insertMemo st₂.memo input (.failure rest e) },
                .err rest e))) := rfl

/-- Over `String` errors, the packrat wrapper of every base-case-free
rule is itself an always-ordinarily-failing parser, at every fuel, from
every success-free state: it never panics and never succeeds — induction
over the fuel through every branch of `packrat_parse` (memo hits,
left-recursion detection with its seeded `Growing` state, the reentrancy
check, and the underlying invocation, whose success — the only entry into
the grow loop — the hypothesis rules out). -/
theorem packratParse_failing {ω : Type} (up : Up ω String) (hup : FailingRule up) :
    ∀ fuel : Nat,
      FailingCallback (fun st i => packratParse up stringToErrorString fuel st i) := by
  intro fuel
  induction fuel with
  | zero => intro st input hns; left; rfl
  | succ n ih =>
    intro st input hns
    dsimp only
    rw [packratParse_succ]
    cases hfm : findMemo st.memo input with
    | some entry =>
      cases entry with
      | success rest out =>
        exact absurd (findMemo_mem st.memo input _ hfm) (hns input rest out)
      | failure rest e =>
        right
        exact ⟨st, rest, e, rfl, hns⟩
      | evaluating =>
        dsimp only
        cases hrs : st.recSt with
        | none =>
          dsimp only
          rw [pkErr_string]
          right
          exact ⟨_, input, _, rfl, hns⟩
        | some p =>
          rcases p with ⟨pos, status⟩
          dsimp only
          by_cases hg : status = GStatus.growing
          · rw [if_pos hg, firstSuccess_of_noSuccess st.memo hns, pkErr_string]
            right
            exact ⟨st, input, _, rfl, hns⟩
          · rw [if_neg hg, pkErr_string]
            right
            exact ⟨st, input, _, rfl, hns⟩
    | none =>
      dsimp only
      by_cases hstk : st.stack > 0
      · rw [if_pos hstk, pkErr_string]
        right
        refine ⟨_, input, _, rfl, ?_⟩
        intro i r o hmem
        rcases List.mem_cons.mp hmem with hmem | hmem
        · cases hmem
        · exact hns i r o hmem
      · rw [if_neg hstk]
        have hns₁ : noSuccessMemo
            (insertMemo (ω := ω) (ε := String) st.memo input MemoEntry.evaluating) := by
          intro i r o hmem
          rcases List.mem_cons.mp hmem with hmem | hmem
          · cases hmem
          · exact hns i r o hmem
        have hcall := hup (fun s i => packratParse up stringToErrorString n s i) ih
          ⟨insertMemo st.memo input MemoEntry.evaluating, st.recSt, st.stack + 1⟩ input hns₁
        rcases hcall with h | ⟨st', rest, e, h, hns'⟩
        · rw [h]; left; rfl
        · rw [h]
          right
          refine ⟨_, rest, e, rfl, ?_⟩
          intro i r o hmem
          rcases List.mem_cons.mp hmem with hmem | hmem
          · cases hmem
          · exact hns' i r o hmem

/-- The base-case-free rule `R -> R "x"` over `String` errors is a
`FailingRule`: it propagates its callback's ordinary failure. -/
theorem upNoBaseS_failing : FailingRule upNoBaseS := by
  intro recurse hrec st input hns
  rcases hrec st input hns with h | ⟨st', rest, e, h, hns'⟩
  · unfold upNoBaseS; rw [h]; left; rfl
  · unfold upNoBaseS; rw [h]; right; exact ⟨st', rest, e, rfl, hns'⟩

/-- Claim C8, amended: for error type `String` (or `&str`, where
`string_to_error` produces the message instead of panicking), EVERY rule
detected as left-recursive that never produces a successful base case
makes `parse` return an ordinary failure value and never panic — for
every such underlying parser, every fuel, every success-free starting
state and every input, the result is fuel exhaustion or a normal
failure, never the modelled panic; concretely, the rule `R -> R "x"` on
`"1"` fails with the designated left-recursion error.  For other error
types `string_to_error` panics by design (the counterexample). -/
theorem packrat_unresolved_failure_ordinary :
    (∀ (ω : Type) (up : Up ω String), FailingRule up →
      ∀ (fuel : Nat) (st : PKSt ω String) (input : Str), noSuccessMemo st.memo →
        packratParse up stringToErrorString fuel st input = none ∨
        ∃ (st' : PKSt ω String) (rest : Str) (e : String),
          packratParse up stringToErrorString fuel st input =
            some (Except.ok (st', PRes.err rest e)) ∧ noSuccessMemo st'.memo) ∧
    (∃ st : PKSt Unit String,
      packratParse upNoBaseS stringToErrorString 6 pkInit (chars "1") =
        some (Except.ok (st, PRes.err (chars "1") "Left-recursive rule encountered"))) :=
  ⟨fun _ up hup fuel st input hns => packratParse_failing up hup fuel st input hns,
    ⟨_, rfl⟩⟩

/-- Claim C9: whenever `P.backtrack().parse(I)` fails, the remainder
returned with the failure is exactly the original input `I`. -/
theorem backtrack_returns_original_input {ι ω ε : Type} (p : ι → PRes ι ω ε)
    (i r : ι) (e : ε) (h : backtrackP p i = PRes.err r e) : r = i := by
  unfold backtrackP at h
  cases hp : p i with
  | ok rest ret => rw [hp] at h; cases h
  | err rest e' => rw [hp] at h; cases h; rfl

/-- Witness for claim C9: `"ab".seq("cd").backtrack()` on `"abXY"` fails
— the inner parser consumed `"ab"` — and the remainder is the original
input. -/
theorem backtrack_witness :
    backtrackP abcdSeq (chars "abXY") =
      PRes.err (chars "abXY") (SEither.right "no cd") ∧
    chars "abXY" = chars "abXY" :=
  ⟨by decide,
    backtrack_returns_original_input abcdSeq (chars "abXY") (chars "abXY")
      (SEither.right "no cd") (by decide)⟩

/-- Claim C10: `P1.or(P2).parse(I)` returns the original input `I` as the
top-level remainder in both the success and the failure case, and on
success each branch's component is exactly that branch's
`(remainder, output)` pair (or absent when the branch failed). -/
theorem or_preserves_original_input {ι ω₁ ω₂ ε₁ ε₂ : Type}
    (p₁ : ι → PRes ι ω₁ ε₁) (p₂ : ι → PRes ι ω₂ ε₂) (i : ι) :
    remOf (orP p₁ p₂ i) = i ∧
    (∀ a b, orP p₁ p₂ i = PRes.ok i (a, b) →
      a = okPart (p₁ i) ∧ b = okPart (p₂ i)) := by
  unfold orP okPart
  cases hp₁ : p₁ i <;> cases hp₂ : p₂ i <;>
    refine ⟨rfl, ?_⟩ <;> intro a b h <;> cases h <;> simp
